import Mathlib

/-!
Shallow embedding of the zustand store-slice factories of the
react-patterns repository, and proofs about the claims of its
specification.

Modelling conventions:
- A TypeScript value of type `TData | null` is modelled as `Option α`
  (`none` is `null`); the element type is an opaque type parameter, so
  propositional equality of `Option α` models JS reference equality.
- A zustand store update `set(produce(recipe))` is an atomic functional
  update of the state record.  zustand notifies subscribers only when the
  produced state differs from the previous one (immer returns the same
  object when the recipe makes no effective change, and zustand skips
  listeners on `Object.is`-equal states), so a `set` contributes one
  notification exactly when the new state differs from the old.
- A `Record<TId, TData>` collection is modelled as an association list
  `List (ι × β)`: property assignment overwrites an existing key in place
  or appends a new one, `delete` removes the key.
- A recipe that throws (e.g. a TypeError from touching a `null`
  collection) is modelled in `Except`; the surrounding `set` then commits
  nothing, leaving the previous state in place (`applySet`).
-/

/-! ## Data slices: restorable and refreshable variants -/

namespace RestorableData

/-- State of the restorable data slice: the current value `data` (from the
base data slice) plus the baseline `initialData`. -/
structure State (α : Type) where
  data : Option α
  initialData : Option α
deriving DecidableEq, Repr

/-- The `reset(data?)` action of `data-restorable.store.slice.ts`.  The
optional TS argument of type `TData | null` is modelled as
`Option (Option α)`: `none` is an omitted argument (`undefined`), and
`some v` is a call with value `v` (where `v = none` is a call with
`null`).  `nextInitial` is the argument when one was supplied, otherwise
the stored baseline; both `initialData` and `data` are set to it. -/
def reset (s : State α) (arg : Option (Option α)) : State α :=
  let nextInitial : Option α :=
    match arg with
    | some v => v
    | none => s.initialData
  { s with initialData := nextInitial, data := nextInitial }

end RestorableData

namespace RefreshableData

/-- State of the refreshable data slice: the restorable slice fields
merged (by the spread in the factory) with the extra `freshData` field. -/
structure State (α : Type) where
  data : Option α
  initialData : Option α
  freshData : Option α
deriving DecidableEq, Repr

/-- The restorable `reset` action, acting on the merged refreshable state
record exactly as in `data-restorable.store.slice.ts` (the refreshable
factory spreads the restorable slice into its own state). -/
def reset (s : State α) (arg : Option (Option α)) : State α :=
  let nextInitial : Option α :=
    match arg with
    | some v => v
    | none => s.initialData
  { s with initialData := nextInitial, data := nextInitial }

/-- JS nullish coalescing `a ?? b` on our model of `TData | null`. -/
def nullish (a b : Option α) : Option α :=
  match a with
  | none => b
  | some x => some x

/-- The `refresh(data)` action of `data-refreshable.store.slice.ts`.  It
issues one `set` writing `freshData`, then calls `get().reset(data ?? null)`
which issues a second `set`.  The result pairs the final state with the
number of subscriber notifications: each `set` notifies exactly when it
changed the state. -/
def refresh [DecidableEq α] (s : State α) (v : Option α) : State α × Nat :=
  let s1 := { s with freshData := v }
  let n1 := if s1 = s then 0 else 1
  let s2 := reset s1 (some (nullish v none))
  let n2 := if s2 = s1 then 0 else 1
  (s2, n1 + n2)

end RefreshableData

/-! ## Data slice: mutable variant -/

namespace MutableData

/-- State of the mutable data slice (the base data slice field). -/
structure State (α : Type) where
  data : Option α
deriving DecidableEq, Repr

/-- The `updateData(updater)` action of `data-mutable.store.slice.ts`:
if the held value is `null` the recipe returns without touching the
draft; otherwise the updater runs against the held value and the result
is committed. -/
def updateData (s : State α) (updater : α → α) : State α :=
  match s.data with
  | none => s
  | some d => { s with data := some (updater d) }

end MutableData

/-! ## List slice (base) and mutable list slice -/

/-- JS runtime errors that the modelled recipes can raise. -/
inductive JsError : Type
  | typeError
deriving DecidableEq, Repr

/-- Commit semantics of `set(produce(recipe))` for a recipe that can
throw: a normal return commits the produced state, a thrown error leaves
the previous state in place and propagates the error to the caller. -/
def applySet (s : σ) (recipe : σ → Except JsError σ) : σ × Option JsError :=
  match recipe s with
  | .ok s1 => (s1, none)
  | .error e => (s, some e)

namespace MutableList

/-- Property assignment `r[id] = v` on a `Record` modelled as an
association list: overwrite the existing key in place, else append. -/
def recordSet [DecidableEq ι] (r : List (ι × β)) (id : ι) (v : β) : List (ι × β) :=
  if r.any (fun p => p.1 = id) then
    r.map (fun p => if p.1 = id then (id, v) else p)
  else
    r ++ [(id, v)]

/-- Property deletion `delete r[id]` on the association-list model. -/
def recordDelete [DecidableEq ι] (r : List (ι × β)) (id : ι) : List (ι × β) :=
  r.filter (fun p => p.1 ≠ id)

/-- Property read `r[id]`, `none` when the key is absent. -/
def recordGet [DecidableEq ι] (r : List (ι × β)) (id : ι) : Option β :=
  (r.find? (fun p => p.1 = id)).map (fun p => p.2)

/-- State of a store composing the base list slice with the mutable list
slice: the keyed collection `data` (nullable, since `setData` accepts
`null`) and the two tracking sequences. -/
structure State (ι β : Type) where
  data : Option (List (ι × β))
  added : List ι
  deleted : List ι
deriving DecidableEq, Repr

/-- The `setData(data)` action of the base `list.store.slice.ts`. -/
def setData (s : State ι β) (d : Option (List (ι × β))) : State ι β :=
  { s with data := d }

/-- The `add(id, element)` recipe of `list-mutable.store.slice.ts`.  Its
first statement assigns `draft.data[id] = element`; on a `null`
collection that assignment throws a TypeError before either tracking
sequence is touched.  Otherwise `id` is appended to `added` unless
already present, and every occurrence of `id` is filtered out of
`deleted`. -/
def add [DecidableEq ι] (s : State ι β) (id : ι) (element : β) :
    Except JsError (State ι β) :=
  match s.data with
  | none => .error .typeError
  | some r =>
    .ok { data := some (recordSet r id element),
          added := if id ∈ s.added then s.added else s.added ++ [id],
          deleted := s.deleted.filter (fun x => x ≠ id) }

/-- The `remove(id)` recipe of `list-mutable.store.slice.ts`.  Its first
statement is `delete draft.data[id]`, which throws a TypeError on a
`null` collection.  Otherwise `id` is appended to `deleted` unless
already present, and every occurrence of `id` is filtered out of
`added`. -/
def remove [DecidableEq ι] (s : State ι β) (id : ι) :
    Except JsError (State ι β) :=
  match s.data with
  | none => .error .typeError
  | some r =>
    .ok { data := some (recordDelete r id),
          added := s.added.filter (fun x => x ≠ id),
          deleted := if id ∈ s.deleted then s.deleted else s.deleted ++ [id] }

/-- One call against the store: `add(id, element)` or `remove(id)`. -/
inductive Op (ι β : Type) : Type
  | add (id : ι) (element : β)
  | remove (id : ι)

/-- Execute one call with the commit semantics of `applySet` (a thrown
recipe leaves the state unchanged). -/
def step [DecidableEq ι] (s : State ι β) : Op ι β → State ι β
  | .add id element => (applySet s (fun t => add t id element)).1
  | .remove id => (applySet s (fun t => remove t id)).1

/-- Execute a sequence of calls in order. -/
def run [DecidableEq ι] (s : State ι β) (ops : List (Op ι β)) : State ι β :=
  ops.foldl step s

/-- The initial state of the composed store: empty tracking sequences and
the initial collection supplied to the base list slice factory. -/
def init (r0 : Option (List (ι × β))) : State ι β :=
  { data := r0, added := [], deleted := [] }

end MutableList

/-! ## Reorderable list slice -/

namespace Reorderable

/-- The `clamp` helper of `list-reorderable.store.slice.ts`:
`Math.max(min, Math.min(max, n))`. -/
def clamp (n lo hi : Int) : Int :=
  Max.max lo (Min.min hi n)

/-- JS `Array.prototype.indexOf`: the index of the first occurrence, or
`-1` when absent. -/
def jsIndexOf [DecidableEq α] (l : List α) (a : α) : Int :=
  if a ∈ l then (List.indexOf a l : Int) else -1

variable [DecidableEq α]

/-- The `move(id, newIndex)` action: no-op when `id` is absent;
otherwise the target index is clamped to `[0, length-1]` and the element
is removed from its current position and re-inserted at the clamped
index. -/
def move (order : List α) (id : α) (newIndex : Int) : List α :=
  let currentIndex := jsIndexOf order id
  if currentIndex = -1 then order
  else
    let bounded := clamp newIndex 0 ((order.length : Int) - 1)
    (order.eraseIdx currentIndex.toNat).insertIdx bounded.toNat id

/-- The `moveToTop(id)` action: no-op when `id` is absent or already at
index 0 (`idx <= 0`); otherwise remove it and `unshift` it to the
front. -/
def moveToTop (order : List α) (id : α) : List α :=
  let idx := jsIndexOf order id
  if idx ≤ 0 then order
  else id :: order.eraseIdx idx.toNat

/-- The `moveToBottom(id)` action: no-op when `id` is absent or already
last; otherwise remove it and `push` it to the end. -/
def moveToBottom (order : List α) (id : α) : List α :=
  let idx := jsIndexOf order id
  if idx = -1 ∨ idx = (order.length : Int) - 1 then order
  else order.eraseIdx idx.toNat ++ [id]

/-- The `moveUp(id)` action: no-op when `id` is absent or at the top;
otherwise remove it and re-insert it one position earlier. -/
def moveUp (order : List α) (id : α) : List α :=
  let idx := jsIndexOf order id
  if idx ≤ 0 then order
  else (order.eraseIdx idx.toNat).insertIdx (idx.toNat - 1) id

/-- The `moveDown(id)` action: no-op when `id` is absent or at the
bottom; otherwise remove it and re-insert it one position later. -/
def moveDown (order : List α) (id : α) : List α :=
  let idx := jsIndexOf order id
  if idx = -1 ∨ idx = (order.length : Int) - 1 then order
  else (order.eraseIdx idx.toNat).insertIdx (idx.toNat + 1) id

end Reorderable

/-! ## Claims about the data slices -/

/-- Claim C3: for the restorable data slice, `reset()` with no argument
sets `data` to the stored baseline and leaves `initialData` unchanged;
`reset(v)` sets both `initialData` and `data` to `v`; in both modes
`data` and `initialData` are equal afterwards. -/
theorem reset_two_modes (s : RestorableData.State α) (v : Option α) :
    (RestorableData.reset s none).data = s.initialData ∧
    (RestorableData.reset s none).initialData = s.initialData ∧
    (RestorableData.reset s (some v)).data = v ∧
    (RestorableData.reset s (some v)).initialData = v ∧
    (RestorableData.reset s none).data = (RestorableData.reset s none).initialData ∧
    (RestorableData.reset s (some v)).data =
      (RestorableData.reset s (some v)).initialData :=
  ⟨rfl, rfl, rfl, rfl, rfl, rfl⟩

/-- Claim C4: `updateData(m)` on a mutable data slice holding `null` is a
silent no-op for every mutator `m`: the state is returned unchanged and
the mutator result is never committed. -/
theorem updateData_null_noop (s : MutableData.State α) (m : α → α)
    (h : s.data = none) : MutableData.updateData s m = s := by
  obtain ⟨d⟩ := s
  cases d with
  | none => rfl
  | some x => exact absurd h (by simp)

/-- Witness for `updateData_null_noop` at a concrete state and mutator. -/
theorem updateData_null_noop_witness :
    MutableData.updateData (⟨none⟩ : MutableData.State Nat) (fun n => n + 1) =
      (⟨none⟩ : MutableData.State Nat) :=
  updateData_null_noop ⟨none⟩ (fun n => n + 1) rfl

/-- Counterexample to claim C1 as stated: `refresh(v)` is not a single
state transition.  On the all-`null` refreshable state, `refresh(some 0)`
issues two `set` calls that both change the state, so subscribers are
notified twice, not once. -/
theorem refresh_two_notifications :
    (RefreshableData.refresh (⟨none, none, none⟩ : RefreshableData.State Nat)
        (some 0)).2 = 2 ∧
    ¬ (RefreshableData.refresh (⟨none, none, none⟩ : RefreshableData.State Nat)
        (some 0)).2 = 1 := by
  decide

/-- Claim C1 (amended): for every value `v` (including `null`),
`refresh(v)` converges `freshData`, the baseline `initialData`, and the
current `data` to `v`; the update happens through two consecutive `set`
calls (first `freshData`, then the delegated `reset`), so it produces at
most two subscriber notifications rather than exactly one. -/
theorem refresh_converges [DecidableEq α] (s : RefreshableData.State α)
    (v : Option α) :
    ((RefreshableData.refresh s v).1.freshData = v ∧
     (RefreshableData.refresh s v).1.initialData = v ∧
     (RefreshableData.refresh s v).1.data = v) ∧
    (RefreshableData.refresh s v).2 ≤ 2 := by
  constructor
  · refine ⟨rfl, ?_, ?_⟩ <;>
      cases v <;>
        simp [RefreshableData.refresh, RefreshableData.reset,
          RefreshableData.nullish]
  · simp only [RefreshableData.refresh]
    split_ifs <;> simp

/-! ## Claims about the mutable list slice -/

/-- Claim C2 evaluated on the code at the failing input: starting from
the empty composed store, `add(1, item)` followed by `remove(1)` leaves
`added` restored to `[]` and the collection without an entry for `1`,
but `deleted` ends as `[1]`, not its pre-`add` value `[]` — the
documented net-zero cancellation does not hold. -/
theorem add_then_remove_marks_deleted :
    (MutableList.run (MutableList.init (some ([] : List (Nat × Bool))))
        [MutableList.Op.add 1 true, MutableList.Op.remove 1]) =
      { data := some [], added := [], deleted := [1] } ∧
    ¬ (MutableList.run (MutableList.init (some ([] : List (Nat × Bool))))
        [MutableList.Op.add 1 true, MutableList.Op.remove 1]).deleted = [] ∧
    MutableList.recordGet
      ((MutableList.run (MutableList.init (some ([] : List (Nat × Bool))))
        [MutableList.Op.add 1 true, MutableList.Op.remove 1]).data.getD []) 1 =
      none := by
  decide

/-- Claim C9: on a store whose collection was set to `null`, the first
statement of both `add` and `remove` throws a TypeError (assigning to,
or deleting a property of, `null`), so the recipe aborts before touching
the tracking sequences and the committed state is unchanged. -/
theorem add_remove_throw_on_null_data [DecidableEq ι]
    (s : MutableList.State ι β) (id : ι) (v : β) (h : s.data = none) :
    MutableList.add s id v = .error .typeError ∧
    MutableList.remove s id = .error .typeError ∧
    applySet s (fun t => MutableList.add t id v) = (s, some .typeError) ∧
    applySet s (fun t => MutableList.remove t id) = (s, some .typeError) := by
  refine ⟨?_, ?_, ?_, ?_⟩ <;>
    simp [MutableList.add, MutableList.remove, applySet, h]

/-- Witness for `add_remove_throw_on_null_data`: the null collection is
reached from a live store via the base slice `setData(null)`. -/
theorem add_remove_throw_on_null_data_witness :
    MutableList.add
        (MutableList.setData
          (MutableList.init (some [((2 : Nat), true)])) none) 1 true =
      .error .typeError ∧
    MutableList.remove
        (MutableList.setData
          (MutableList.init (some [((2 : Nat), true)])) none) 1 =
      .error .typeError ∧
    applySet (MutableList.setData
          (MutableList.init (some [((2 : Nat), true)])) none)
        (fun t => MutableList.add t 1 true) =
      (MutableList.setData (MutableList.init (some [((2 : Nat), true)])) none,
        some .typeError) ∧
    applySet (MutableList.setData
          (MutableList.init (some [((2 : Nat), true)])) none)
        (fun t => MutableList.remove t 1) =
      (MutableList.setData (MutableList.init (some [((2 : Nat), true)])) none,
        some .typeError) :=
  add_remove_throw_on_null_data
    (MutableList.setData (MutableList.init (some [((2 : Nat), true)])) none)
    1 true rfl

namespace MutableList

/-- One `add` or `remove` step keeps the tracking sequences disjoint:
`add` filters the id out of `deleted` while (possibly) appending it to
`added`, and `remove` does the opposite. -/
theorem step_disjoint [DecidableEq ι] {s : State ι β} (op : Op ι β)
    (h : ∀ x : ι, x ∈ s.added → x ∉ s.deleted) :
    ∀ x : ι, x ∈ (step s op).added → x ∉ (step s op).deleted := by
  cases op with
  | add id e =>
    cases hd : s.data with
    | none => simpa [step, applySet, add, hd] using h
    | some r =>
      intro x hx hx2
      simp [step, applySet, add, hd] at hx hx2
      split_ifs at hx with hmem
      · exact h x hx hx2.1
      · rcases List.mem_append.mp hx with hx | hx
        · exact h x hx hx2.1
        · simp at hx
          exact hx2.2 hx
  | remove id =>
    cases hd : s.data with
    | none => simpa [step, applySet, remove, hd] using h
    | some r =>
      intro x hx hx2
      simp [step, applySet, remove, hd] at hx hx2
      split_ifs at hx2 with hmem
      · exact h x hx.1 hx2
      · rcases List.mem_append.mp hx2 with hx2 | hx2
        · exact h x hx.1 hx2
        · simp at hx2
          exact hx.2 hx2
  
/-- One `add` or `remove` step keeps both tracking sequences free of
duplicates: ids are appended only when absent and filtering preserves
`Nodup`. -/
theorem step_nodup [DecidableEq ι] {s : State ι β} (op : Op ι β)
    (h : s.added.Nodup ∧ s.deleted.Nodup) :
    (step s op).added.Nodup ∧ (step s op).deleted.Nodup := by
  cases op with
  | add id e =>
    cases hd : s.data with
    | none => simpa [step, applySet, add, hd] using h
    | some r =>
      refine ⟨?_, ?_⟩ <;> simp [step, applySet, add, hd]
      · split_ifs with hmem
        · exact h.1
        · simp [List.nodup_append, h.1, hmem]
      · exact h.2.filter _
  | remove id =>
    cases hd : s.data with
    | none => simpa [step, applySet, remove, hd] using h
    | some r =>
      refine ⟨?_, ?_⟩ <;> simp [step, applySet, remove, hd]
      · exact h.1.filter _
      · split_ifs with hmem
        · exact h.2
        · simp [List.nodup_append, h.2, hmem]

/-- A property preserved by every `step` holds after every `run`. -/
theorem run_preserves [DecidableEq ι] {P : State ι β → Prop}
    (hstep : ∀ (s : State ι β) (op : Op ι β), P s → P (step s op)) :
    ∀ (ops : List (Op ι β)) (s : State ι β), P s → P (run s ops) := by
  intro ops
  induction ops with
  | nil => intro s h; simpa [run] using h
  | cons op ops ih =>
    intro s h
    simpa [run] using ih (step s op) (hstep s op h)

end MutableList

/-- Claim C5: in every state reachable from the initial mutable list
state by any sequence of `add` and `remove` calls, no identifier sits in
both tracking sequences at once. -/
theorem added_deleted_disjoint [DecidableEq ι]
    (r0 : Option (List (ι × β))) (ops : List (MutableList.Op ι β)) (x : ι)
    (hx : x ∈ (MutableList.run (MutableList.init r0) ops).added) :
    x ∉ (MutableList.run (MutableList.init r0) ops).deleted :=
  MutableList.run_preserves
    (P := fun s => ∀ y : ι, y ∈ s.added → y ∉ s.deleted)
    (fun _ op h => MutableList.step_disjoint op h) ops
    (MutableList.init r0)
    (by intro y hy; simp [MutableList.init] at hy) x hx

/-- Witness for `added_deleted_disjoint`: after a single `add(0, item)`
from the empty store, `0` is tracked in `added` and hence not in
`deleted`. -/
theorem added_deleted_disjoint_witness :
    (0 : Nat) ∉ (MutableList.run
        (MutableList.init (some ([] : List (Nat × Bool))))
        [MutableList.Op.add 0 true]).deleted :=
  added_deleted_disjoint (some []) [MutableList.Op.add 0 true] 0 (by decide)

/-- Claim C10: in every state reachable from the initial mutable list
state by any sequence of `add` and `remove` calls, neither tracking
sequence contains a duplicate identifier. -/
theorem added_deleted_nodup [DecidableEq ι]
    (r0 : Option (List (ι × β))) (ops : List (MutableList.Op ι β)) :
    (MutableList.run (MutableList.init r0) ops).added.Nodup ∧
    (MutableList.run (MutableList.init r0) ops).deleted.Nodup :=
  MutableList.run_preserves
    (P := fun s => s.added.Nodup ∧ s.deleted.Nodup)
    (fun _ op h => MutableList.step_nodup op h) ops
    (MutableList.init r0)
    (by simp [MutableList.init])

/-! ## Claims about the reorderable list slice -/

namespace Reorderable

/-- Inserting an element that fails the predicate does not change a
filtered list. -/
theorem filter_insertIdx (p : α → Bool) (a : α) (hpa : p a = false) :
    ∀ (i : Nat) (l : List α), (List.insertIdx i a l).filter p = l.filter p
  | 0, l => by simp [List.insertIdx_zero, List.filter_cons, hpa]
  | _ + 1, [] => rfl
  | i + 1, x :: xs => by
    simp [List.insertIdx_succ_cons, List.filter_cons,
      filter_insertIdx p a hpa i xs]

/-- Erasing an element that fails the predicate does not change a
filtered list. -/
theorem filter_eraseIdx (p : α → Bool) :
    ∀ (l : List α) (i : Nat) (h : i < l.length),
      p (l.get ⟨i, h⟩) = false → (l.eraseIdx i).filter p = l.filter p
  | x :: xs, 0, _, hp => by
    have hp2 : p x = false := hp
    simp [List.eraseIdx_cons_zero, List.filter_cons, hp2]
  | x :: xs, i + 1, h, hp => by
    have h2 : i < xs.length := Nat.lt_of_succ_lt_succ h
    have hp2 : p (xs.get ⟨i, h2⟩) = false := hp
    simp [List.eraseIdx_cons_succ, List.filter_cons,
      filter_eraseIdx p xs i h2 hp2]

/-- The element sitting at `indexOf id` is `id` itself, so erasing there
leaves the `id`-free filtration unchanged. -/
theorem filter_ne_eraseIdx_indexOf [DecidableEq α] (order : List α) (id : α)
    (h : id ∈ order) :
    (order.eraseIdx (List.indexOf id order)).filter (fun x => x ≠ id) =
      order.filter (fun x => x ≠ id) := by
  have hlt : List.indexOf id order < order.length := List.indexOf_lt_length.mpr h
  refine filter_eraseIdx _ order _ hlt ?_
  have hg : order.get ⟨List.indexOf id order, hlt⟩ = id := by
    simp [List.getElem_indexOf hlt]
  simp [hg]

/-- Erasing the first occurrence of `id` does not change the `id`-free
filtration. -/
theorem filter_ne_erase [DecidableEq α] (order : List α) (id : α) :
    (order.erase id).filter (fun x => x ≠ id) =
      order.filter (fun x => x ≠ id) := by
  induction order with
  | nil => rfl
  | cons x xs ih =>
    by_cases hxi : x = id
    · simp [List.erase_cons, hxi, List.filter_cons]
    · simp [List.erase_cons, hxi, List.filter_cons]
      simpa using ih

/-- The `jsIndexOf` of a present element is its `indexOf`. -/
theorem jsIndexOf_of_mem [DecidableEq α] {l : List α} {a : α} (h : a ∈ l) :
    jsIndexOf l a = (List.indexOf a l : Int) := by
  simp [jsIndexOf, h]

/-- The `jsIndexOf` of an absent element is `-1`. -/
theorem jsIndexOf_of_not_mem [DecidableEq α] {l : List α} {a : α} (h : a ∉ l) :
    jsIndexOf l a = -1 := by
  simp [jsIndexOf, h]

end Reorderable

/-- Claim C7: every reorderable operation (`move`, `moveToTop`,
`moveToBottom`, `moveUp`, `moveDown`) leaves the elements other than the
moved id in the same relative order: the `id`-free filtration of the
order is unchanged. -/
theorem reorder_preserves_other_elements [DecidableEq α]
    (order : List α) (id : α) (n : Int) :
    (Reorderable.move order id n).filter (fun x => x ≠ id) =
      order.filter (fun x => x ≠ id) ∧
    (Reorderable.moveToTop order id).filter (fun x => x ≠ id) =
      order.filter (fun x => x ≠ id) ∧
    (Reorderable.moveToBottom order id).filter (fun x => x ≠ id) =
      order.filter (fun x => x ≠ id) ∧
    (Reorderable.moveUp order id).filter (fun x => x ≠ id) =
      order.filter (fun x => x ≠ id) ∧
    (Reorderable.moveDown order id).filter (fun x => x ≠ id) =
      order.filter (fun x => x ≠ id) := by
  by_cases h : id ∈ order
  · have hx := Reorderable.jsIndexOf_of_mem h
    have hne : Reorderable.jsIndexOf order id ≠ -1 := by rw [hx]; omega
    refine ⟨?_, ?_, ?_, ?_, ?_⟩
    · simp only [Reorderable.move, if_neg hne]
      rw [hx, Int.toNat_natCast]
      rw [Reorderable.filter_insertIdx _ _ (by simp)]
      exact Reorderable.filter_ne_eraseIdx_indexOf order id h
    · by_cases h0 : Reorderable.jsIndexOf order id ≤ 0
      · simp [Reorderable.moveToTop, if_pos h0]
      · simp only [Reorderable.moveToTop, if_neg h0]
        rw [hx, Int.toNat_natCast]
        simp [List.filter_cons]
        simpa using Reorderable.filter_ne_erase order id
    · by_cases hb : Reorderable.jsIndexOf order id = -1 ∨
          Reorderable.jsIndexOf order id = (order.length : Int) - 1
      · simp [Reorderable.moveToBottom, if_pos hb]
      · simp only [Reorderable.moveToBottom, if_neg hb]
        rw [hx, Int.toNat_natCast]
        simp [List.filter_append]
        simpa using Reorderable.filter_ne_erase order id
    · by_cases h0 : Reorderable.jsIndexOf order id ≤ 0
      · simp [Reorderable.moveUp, if_pos h0]
      · simp only [Reorderable.moveUp, if_neg h0]
        rw [hx, Int.toNat_natCast]
        rw [Reorderable.filter_insertIdx _ _ (by simp)]
        exact Reorderable.filter_ne_eraseIdx_indexOf order id h
    · by_cases hb : Reorderable.jsIndexOf order id = -1 ∨
          Reorderable.jsIndexOf order id = (order.length : Int) - 1
      · simp [Reorderable.moveDown, if_pos hb]
      · simp only [Reorderable.moveDown, if_neg hb]
        rw [hx, Int.toNat_natCast]
        rw [Reorderable.filter_insertIdx _ _ (by simp)]
        exact Reorderable.filter_ne_eraseIdx_indexOf order id h
  · have hx := Reorderable.jsIndexOf_of_not_mem h
    refine ⟨?_, ?_, ?_, ?_, ?_⟩ <;>
      simp [Reorderable.move, Reorderable.moveToTop, Reorderable.moveToBottom,
        Reorderable.moveUp, Reorderable.moveDown, hx]

/-- Claim C6: `move(id, targetIndex)` is a no-op when `id` is absent;
when `id` is present the call never errors and relocates `id` to the
target index clamped to `[0, length-1]`: the length is preserved and the
element at the clamped index is `id`, where a non-positive target clamps
to `0` and a target at or past `length-1` clamps to `length-1`. -/
theorem move_clamps [DecidableEq α] (order : List α) (id : α) (n : Int) :
    (id ∉ order → Reorderable.move order id n = order) ∧
    (id ∈ order →
      (Reorderable.move order id n).length = order.length ∧
      ∃ hb : (Reorderable.clamp n 0 ((order.length : Int) - 1)).toNat <
          (Reorderable.move order id n).length,
        (Reorderable.move order id n).get
          ⟨(Reorderable.clamp n 0 ((order.length : Int) - 1)).toNat, hb⟩ = id) ∧
    (n ≤ 0 → (Reorderable.clamp n 0 ((order.length : Int) - 1)).toNat = 0) ∧
    (id ∈ order → (order.length : Int) - 1 ≤ n →
      (Reorderable.clamp n 0 ((order.length : Int) - 1)).toNat =
        order.length - 1) := by
  refine ⟨?_, ?_, ?_, ?_⟩
  · intro h
    simp [Reorderable.move, Reorderable.jsIndexOf_of_not_mem h]
  · intro h
    have hx := Reorderable.jsIndexOf_of_mem h
    have hne : Reorderable.jsIndexOf order id ≠ -1 := by rw [hx]; omega
    have hk : List.indexOf id order < order.length := List.indexOf_lt_length.mpr h
    have hlen1 : 1 ≤ order.length := List.length_pos.mpr (List.ne_nil_of_mem h)
    have hc0 : 0 ≤ Reorderable.clamp n 0 ((order.length : Int) - 1) :=
      le_max_left 0 _
    have hc1 : Reorderable.clamp n 0 ((order.length : Int) - 1) ≤
        (order.length : Int) - 1 := by
      refine max_le ?_ (min_le_left _ _)
      omega
    have hel : (order.eraseIdx (List.indexOf id order)).length + 1 =
        order.length := List.length_eraseIdx_add_one hk
    have hble : (Reorderable.clamp n 0 ((order.length : Int) - 1)).toNat ≤
        (order.eraseIdx (List.indexOf id order)).length := by omega
    have hmove : Reorderable.move order id n =
        (order.eraseIdx (List.indexOf id order)).insertIdx
          (Reorderable.clamp n 0 ((order.length : Int) - 1)).toNat id := by
      simp only [Reorderable.move, if_neg hne]
      rw [hx, Int.toNat_natCast]
    have hlen : (Reorderable.move order id n).length = order.length := by
      rw [hmove, List.length_insertIdx _ _ hble]
      omega
    refine ⟨hlen, ?_, ?_⟩
    · rw [hlen]; omega
    · have hself := List.getElem_insertIdx_self
        (order.eraseIdx (List.indexOf id order)) id
        (Reorderable.clamp n 0 ((order.length : Int) - 1)).toNat hble
      rw [List.get_eq_getElem]
      simp only [hmove]
      exact hself
  · intro hn
    have hx0 : Min.min ((order.length : Int) - 1) n ≤ 0 :=
      le_trans (min_le_right _ _) hn
    simp only [Reorderable.clamp]
    omega
  · intro h hn
    have hlen1 : 1 ≤ order.length := List.length_pos.mpr (List.ne_nil_of_mem h)
    simp only [Reorderable.clamp]
    omega

/-- Witness for `move_clamps`: moving `20` to index `99` in a
three-element order keeps the length and clamps the index to `2`. -/
theorem move_clamps_witness :
    (Reorderable.move [10, 20, 30] (20 : Nat) 99).length =
      ([10, 20, 30] : List Nat).length ∧
    (Reorderable.clamp 99 0 ((([10, 20, 30] : List Nat).length : Int) - 1)).toNat =
      ([10, 20, 30] : List Nat).length - 1 := by
  have h := move_clamps [10, 20, 30] (20 : Nat) 99
  exact ⟨(h.2.1 (by decide)).1, h.2.2.2 (by decide) (by decide)⟩

/-- Claim C8: `moveToTop(id)` is idempotent for ids present in the
order: after the first call the id sits at index `0`, so the second call
takes the `idx <= 0` early return and changes nothing. -/
theorem moveToTop_idempotent [DecidableEq α] (order : List α) (id : α)
    (_h : id ∈ order) :
    Reorderable.moveToTop (Reorderable.moveToTop order id) id =
      Reorderable.moveToTop order id := by
  by_cases h0 : Reorderable.jsIndexOf order id ≤ 0
  · have e : Reorderable.moveToTop order id = order := by
      simp [Reorderable.moveToTop, if_pos h0]
    rw [e]
    exact e
  · have e : Reorderable.moveToTop order id =
        id :: order.eraseIdx (Reorderable.jsIndexOf order id).toNat := by
      simp only [Reorderable.moveToTop, if_neg h0]
    rw [e]
    have h02 : Reorderable.jsIndexOf
        (id :: order.eraseIdx (Reorderable.jsIndexOf order id).toNat) id ≤ 0 := by
      rw [Reorderable.jsIndexOf_of_mem (List.mem_cons_self _ _)]
      simp [List.indexOf_cons_self]
    simp [Reorderable.moveToTop, if_pos h02]

/-- Witness for `moveToTop_idempotent` on a concrete order. -/
theorem moveToTop_idempotent_witness :
    Reorderable.moveToTop (Reorderable.moveToTop [1, 2, 3] (3 : Nat)) 3 =
      Reorderable.moveToTop [1, 2, 3] (3 : Nat) :=
  moveToTop_idempotent [1, 2, 3] 3 (by decide)
